import Mathlib

/-!
A shallow embedding of the `temperature_toolkit` Python package
(`converter.py`, `record.py`, `analytics.py`).

Modelling conventions:
* Python `float` values are modelled as exact rationals `ℚ`.
* Python's `round(x, 2)` is modelled as rounding to the nearest multiple of
  `1/100` with ties going to the even multiple (`round2` below), Python's
  documented round-half-to-even policy.
* Python `str.lower()` is `str_lower` below (all scale strings are ASCII).
* A Python `ValueError` raised by `convert` is modelled with `Except ConvError`;
  the two constructors record which argument was invalid and its (normalized)
  value, mirroring the two f-string messages in the source.
* `float("-inf")` used as a sentinel key in `hottest_day` is modelled with
  `WithBot ℚ`, whose `⊥` compares below every rational, exactly as `-inf`
  compares below every finite float.
-/

namespace TempToolkit

/-- Python's `str.lower()` on the ASCII scale strings this package uses:
lower-case every character. -/
def str_lower (s : String) : String := String.mk (s.data.map Char.toLower)

/-- Round a rational to the nearest integer, ties to even. -/
def round_half_even (q : ℚ) : ℤ :=
  let n := ⌊q⌋
  let frac := q - (n : ℚ)
  if frac < 1/2 then n
  else if 1/2 < frac then n + 1
  else if n % 2 = 0 then n else n + 1

/-- Python's `round(q, 2)`: nearest multiple of 1/100, ties to even. -/
def round2 (q : ℚ) : ℚ := (round_half_even (q * 100) : ℚ) / 100

/-- The error raised by `converter.convert`: `ValueError` with a message
identifying which scale argument was invalid and its normalized value. -/
inductive ConvError where
  | invalidOriginal (scale : String) : ConvError
  | invalidTarget (scale : String) : ConvError
deriving DecidableEq, Repr

/-- `valid_scales` list from `converter.py`. -/
def valid_scales : List String := ["celsius", "fahrenheit", "kelvin"]

/-- Step 1 of `convert`: original value to Celsius. -/
def to_celsius (value : ℚ) (original_scale : String) : ℚ :=
  if original_scale = "fahrenheit" then (value - 32) * 5 / 9
  else if original_scale = "kelvin" then value - 273.15
  else value

/-- Step 2 of `convert`: Celsius to target scale. -/
def from_celsius (celsius : ℚ) (target_scale : String) : ℚ :=
  if target_scale = "fahrenheit" then celsius * 9 / 5 + 32
  else if target_scale = "kelvin" then celsius + 273.15
  else celsius

/-- `converter.convert`: normalize both scales, validate them (original first),
return the value rounded to 2 decimals if the scales agree, otherwise convert
through Celsius and round to 2 decimals. -/
def convert (value : ℚ) (original_scale target_scale : String) :
    Except ConvError ℚ :=
  let o := str_lower original_scale
  let t := str_lower target_scale
  if o ∉ valid_scales then Except.error (ConvError.invalidOriginal o)
  else if t ∉ valid_scales then Except.error (ConvError.invalidTarget t)
  else if o = t then Except.ok (round2 value)
  else Except.ok (round2 (from_celsius (to_celsius value o) t))

/-- The value of a successful `convert`, with an arbitrary default on the
error branch (used only under hypotheses that rule the error branch out). -/
def pconvert (value : ℚ) (original_scale target_scale : String) : ℚ :=
  match convert value original_scale target_scale with
  | Except.ok q => q
  | Except.error _ => 0

end TempToolkit

namespace TempToolkit

/-- `record.TemperatureRecord`: a date label, a list of readings, and the
scale the readings are expressed in. -/
structure TemperatureRecord where
  date : String
  readings : List ℚ
  scale : String
deriving DecidableEq, Repr

/-- `TemperatureRecord.__init__`: stores the scale lower-cased, with no
validation of the date, the readings, or the scale. -/
def TemperatureRecord.make (date : String) (readings : List ℚ)
    (scale : String) : TemperatureRecord :=
  { date := date, readings := readings, scale := str_lower scale }

/-- `TemperatureRecord.convert_to`: lower-case the target; if it equals the
stored scale, return the record unchanged; otherwise convert every reading
and store the normalized target scale. A conversion error leaves the record
unchanged (in Python the exception propagates before any field is
assigned). -/
def TemperatureRecord.convert_to (r : TemperatureRecord)
    (target_scale : String) : Except ConvError TemperatureRecord :=
  let t := str_lower target_scale
  if t = r.scale then Except.ok r
  else do
    let new ← r.readings.mapM (fun temp => convert temp r.scale t)
    Except.ok { r with readings := new, scale := t }

/-- The dictionary returned by `TemperatureRecord.get_summary`. -/
structure Summary where
  date : String
  scale : String
  min : ℚ
  max : ℚ
  avg : ℚ
deriving DecidableEq, Repr

/-- `TemperatureRecord.get_summary`: all-zero sentinel statistics for empty
readings, otherwise min/max/mean of the readings rounded to 2 decimals. -/
def TemperatureRecord.get_summary (r : TemperatureRecord) : Summary :=
  match r.readings with
  | [] => { date := r.date, scale := r.scale, min := 0, max := 0, avg := 0 }
  | x :: xs =>
    { date := r.date
      scale := r.scale
      min := round2 (xs.foldl min x)
      max := round2 (xs.foldl max x)
      avg := round2 ((x :: xs).sum / ((x :: xs).length : ℚ)) }

/-- `TemperatureRecord.is_above_threshold`: all readings strictly above. -/
def TemperatureRecord.is_above_threshold (r : TemperatureRecord)
    (threshold : ℚ) : Bool :=
  r.readings.all (fun temp => threshold < temp)

/-- `TemperatureRecord.is_at_or_above_threshold`: all readings at or above. -/
def TemperatureRecord.is_at_or_above_threshold (r : TemperatureRecord)
    (threshold : ℚ) : Bool :=
  r.readings.all (fun temp => threshold ≤ temp)

/-- `analytics.average_temperature_across_days`. -/
def average_temperature_across_days (records : List TemperatureRecord) : ℚ :=
  let all_readings := (records.map TemperatureRecord.readings).flatten
  if all_readings = [] then 0
  else round2 (all_readings.sum / (all_readings.length : ℚ))

/-- The key function `avg_in_celsius` inside `analytics.hottest_day`:
`-inf` (here `⊥`) for empty readings, otherwise the mean of the readings
converted to Celsius. -/
def avg_in_celsius (record : TemperatureRecord) :
    Except ConvError (WithBot ℚ) :=
  if record.readings = [] then Except.ok ⊥
  else do
    let temps_c ← record.readings.mapM
      (fun t => convert t record.scale "celsius")
    Except.ok ((temps_c.sum / (temps_c.length : ℚ) : ℚ) : WithBot ℚ)

/-- Python's `max(_, key=_)` after the key of each element has been computed:
scan left to right keeping the current best, replacing it only on a strictly
greater key, so the first element attaining the maximum wins. -/
def pyMaxAux {α : Type} (best : α × WithBot ℚ) :
    List (α × WithBot ℚ) → α × WithBot ℚ
  | [] => best
  | x :: xs => pyMaxAux (if best.2 < x.2 then x else best) xs

/-- `analytics.hottest_day`: empty string for no records, otherwise the date
of the record with the maximum Celsius mean (Python `max` with key
`avg_in_celsius`, keys computed once per record in input order). -/
def hottest_day (records : List TemperatureRecord) : Except ConvError String :=
  match records with
  | [] => Except.ok ""
  | r :: rs => do
    let k ← avg_in_celsius r
    let keyed ← rs.mapM (fun x => (avg_in_celsius x).map (fun kx => (x, kx)))
    Except.ok (pyMaxAux (r, k) keyed).1.date

/-- `analytics.detect_extreme_days`: dates of the records with at least one
reading strictly above the threshold, in input order. -/
def detect_extreme_days (records : List TemperatureRecord) (threshold : ℚ) :
    List String :=
  (records.filter
    (fun record => record.readings.any (fun temp => threshold < temp))).map
    TemperatureRecord.date

/-- The (min, max) pair `temperature_range_for_each_day` stores for one
record: (0, 0) for empty readings, otherwise rounded min and max. -/
def day_range (record : TemperatureRecord) : ℚ × ℚ :=
  match record.readings with
  | [] => (0, 0)
  | x :: xs => (round2 (xs.foldl min x), round2 (xs.foldl max x))

/-- `analytics.temperature_range_for_each_day`: the result dict, modelled as
the partial map from dates to (min, max) pairs that the insertion loop
builds; a later record with the same date overwrites an earlier one. -/
def temperature_range_for_each_day (records : List TemperatureRecord) :
    String → Option (ℚ × ℚ) :=
  records.foldl
    (fun result record => Function.update result record.date
      (some (day_range record)))
    (fun _ => none)

/-- `analytics.temperature_trend`. -/
def temperature_trend : List ℚ → List String
  | [] => []
  | [_] => []
  | x :: y :: rest =>
    (if x < y then "up" else if y < x then "down" else "same")
      :: temperature_trend (y :: rest)

/-- Loop body of `analytics.detect_spike`, carrying the previous reading. -/
def spikeAux (threshold : ℚ) : ℚ → List ℚ → Bool
  | _, [] => false
  | prev, x :: xs =>
    if threshold ≤ |x - prev| then true else spikeAux threshold x xs

/-- `analytics.detect_spike` with an explicit threshold argument. -/
def detect_spike (temps : List ℚ) (threshold : ℚ) : Bool :=
  match temps with
  | [] => false
  | x :: xs => spikeAux threshold x xs

/-- The default value of `detect_spike`'s keyword-only `threshold`. -/
def detect_spike_default_threshold : ℚ := 5

/-- `detect_spike` as called with the threshold omitted. -/
def detect_spike_default (temps : List ℚ) : Bool :=
  detect_spike temps detect_spike_default_threshold

end TempToolkit

namespace TempToolkit

theorem round_half_even_close (q : ℚ) : |(round_half_even q : ℚ) - q| ≤ 1/2 := by
  unfold round_half_even
  have h0 : (0:ℚ) ≤ q - (⌊q⌋ : ℚ) := by
    have := Int.floor_le q
    linarith
  have h1 : q - (⌊q⌋ : ℚ) < 1 := by
    have := Int.lt_floor_add_one q
    linarith
  by_cases hlt : q - (⌊q⌋ : ℚ) < 1/2
  · simp only [hlt, if_true]
    rw [abs_le]
    constructor <;> linarith
  · simp only [hlt, if_false]
    by_cases hgt : 1/2 < q - (⌊q⌋ : ℚ)
    · simp only [hgt, if_true]
      rw [abs_le]
      push_cast
      constructor <;> linarith
    · have heq : q - (⌊q⌋ : ℚ) = 1/2 := le_antisymm (not_lt.mp hgt) (not_lt.mp hlt)
      simp only [hgt, if_false]
      by_cases hev : ⌊q⌋ % 2 = 0
      · simp only [hev, if_true]
        rw [abs_le]
        constructor <;> linarith
      · simp only [hev, if_false]
        rw [abs_le]
        push_cast
        constructor <;> linarith

theorem round2_close (q : ℚ) : |round2 q - q| ≤ 1/200 := by
  unfold round2
  have h := round_half_even_close (q * 100)
  have : (round_half_even (q * 100) : ℚ) / 100 - q
      = ((round_half_even (q * 100) : ℚ) - q * 100) / 100 := by ring
  rw [this, abs_div]
  have h100 : |(100:ℚ)| = 100 := by norm_num
  rw [h100, div_le_iff (by norm_num : (0:ℚ) < 100)]
  linarith

theorem mem_valid_scales {s : String} (h : s ∈ valid_scales) :
    s = "celsius" ∨ s = "fahrenheit" ∨ s = "kelvin" := by
  simpa [valid_scales] using h

theorem str_lower_valid_fix {s : String} (h : s ∈ valid_scales) :
    str_lower s = s := by
  rcases mem_valid_scales h with rfl | rfl | rfl <;> decide

theorem convert_isOk (v : ℚ) (A B : String)
    (hA : str_lower A ∈ valid_scales) (hB : str_lower B ∈ valid_scales) :
    convert v A B = Except.ok (pconvert v A B) := by
  unfold pconvert
  simp only [convert, hA, hB, not_true_eq_false, if_false]
  by_cases h : str_lower A = str_lower B <;> simp [h]

theorem pconvert_eq_of_ne (v : ℚ) {A B : String}
    (hA : str_lower A ∈ valid_scales) (hB : str_lower B ∈ valid_scales)
    (hne : str_lower A ≠ str_lower B) :
    pconvert v A B
      = round2 (from_celsius (to_celsius v (str_lower A)) (str_lower B)) := by
  unfold pconvert
  simp [convert, hA, hB, hne]

theorem to_celsius_cel (v : ℚ) : to_celsius v "celsius" = v := by
  simp [to_celsius]

theorem to_celsius_fah (v : ℚ) : to_celsius v "fahrenheit" = (v - 32) * 5 / 9 := by
  simp [to_celsius]

theorem to_celsius_kel (v : ℚ) : to_celsius v "kelvin" = v - 273.15 := by
  simp [to_celsius]

theorem from_celsius_cel (c : ℚ) : from_celsius c "celsius" = c := by
  simp [from_celsius]

theorem from_celsius_fah (c : ℚ) : from_celsius c "fahrenheit" = c * 9 / 5 + 32 := by
  simp [from_celsius]

theorem from_celsius_kel (c : ℚ) : from_celsius c "kelvin" = c + 273.15 := by
  simp [from_celsius]

theorem round_trip_aux (v fv s : ℚ) (back : ℚ → ℚ)
    (hback : ∀ x, back x = v + s * (x - fv))
    (hs0 : 0 ≤ s) (hs : s ≤ 9/5) :
    |round2 (back (round2 fv)) - v| ≤ 7/500 := by
  have h1 := round2_close fv
  have h2 := round2_close (back (round2 fv))
  have h3 : |back (round2 fv) - v| ≤ 9/1000 := by
    rw [hback]
    have he : v + s * (round2 fv - fv) - v = s * (round2 fv - fv) := by ring
    rw [he, abs_mul, abs_of_nonneg hs0]
    calc s * |round2 fv - fv| ≤ (9/5) * (1/200) :=
          mul_le_mul hs h1 (abs_nonneg _) (by norm_num)
      _ = 9/1000 := by norm_num
  calc |round2 (back (round2 fv)) - v|
      ≤ |round2 (back (round2 fv)) - back (round2 fv)| + |back (round2 fv) - v| :=
        abs_sub_le _ _ _
    _ ≤ 1/200 + 9/1000 := add_le_add h2 h3
    _ = 7/500 := by norm_num

theorem convert_round_trip_bound (v : ℚ) (a b : String)
    (ha : a ∈ valid_scales) (hb : b ∈ valid_scales) :
    |round2 (from_celsius (to_celsius
        (round2 (from_celsius (to_celsius v a) b)) b) a) - v| ≤ 7/500 := by
  rcases mem_valid_scales ha with rfl | rfl | rfl <;>
    rcases mem_valid_scales hb with rfl | rfl | rfl
  · rw [to_celsius_cel, from_celsius_cel, to_celsius_cel, from_celsius_cel]
    exact round_trip_aux v v 1 (fun x => x) (by intro x; ring) (by norm_num)
      (by norm_num)
  · rw [to_celsius_cel, from_celsius_fah, to_celsius_fah, from_celsius_cel]
    exact round_trip_aux v (v * 9 / 5 + 32) (5/9) (fun x => (x - 32) * 5 / 9)
      (by intro x; ring) (by norm_num) (by norm_num)
  · rw [to_celsius_cel, from_celsius_kel, to_celsius_kel, from_celsius_cel]
    exact round_trip_aux v (v + 273.15) 1 (fun x => x - 273.15)
      (by intro x; ring) (by norm_num) (by norm_num)
  · rw [to_celsius_fah, from_celsius_cel, to_celsius_cel, from_celsius_fah]
    exact round_trip_aux v ((v - 32) * 5 / 9) (9/5) (fun x => x * 9 / 5 + 32)
      (by intro x; ring) (by norm_num) (by norm_num)
  · rw [to_celsius_fah, from_celsius_fah, to_celsius_fah, from_celsius_fah]
    exact round_trip_aux v ((v - 32) * 5 / 9 * 9 / 5 + 32) 1
      (fun x => (x - 32) * 5 / 9 * 9 / 5 + 32)
      (by intro x; ring) (by norm_num) (by norm_num)
  · rw [to_celsius_fah, from_celsius_kel, to_celsius_kel, from_celsius_fah]
    exact round_trip_aux v ((v - 32) * 5 / 9 + 273.15) (9/5)
      (fun x => (x - 273.15) * 9 / 5 + 32)
      (by intro x; ring) (by norm_num) (by norm_num)
  · rw [to_celsius_kel, from_celsius_cel, to_celsius_cel, from_celsius_kel]
    exact round_trip_aux v (v - 273.15) 1 (fun x => x + 273.15)
      (by intro x; ring) (by norm_num) (by norm_num)
  · rw [to_celsius_kel, from_celsius_fah, to_celsius_fah, from_celsius_kel]
    exact round_trip_aux v ((v - 273.15) * 9 / 5 + 32) (5/9)
      (fun x => (x - 32) * 5 / 9 + 273.15)
      (by intro x; ring) (by norm_num) (by norm_num)
  · rw [to_celsius_kel, from_celsius_kel, to_celsius_kel, from_celsius_kel]
    exact round_trip_aux v (v - 273.15 + 273.15) 1
      (fun x => x - 273.15 + 273.15)
      (by intro x; ring) (by norm_num) (by norm_num)

/-- C2 counterexample: at `v = 32.028` the Fahrenheit→Celsius→Fahrenheit
round trip returns `32.04`, which differs from `v` by `0.012 > 0.01`, so the
claimed `0.01` tolerance fails. -/
theorem convert_round_trip_within_001_false :
    convert (32028/1000) "fahrenheit" "celsius" = Except.ok (2/100) ∧
    convert (2/100) "celsius" "fahrenheit" = Except.ok (3204/100) ∧
    ¬ |(3204/100 : ℚ) - 32028/1000| ≤ 1/100 := by
  have h1 : str_lower "fahrenheit" = "fahrenheit" := by decide
  have h2 : str_lower "celsius" = "celsius" := by decide
  refine ⟨?_, ?_, ?_⟩
  · simp only [convert, h1, h2, valid_scales, to_celsius, from_celsius]
    simp
    norm_num [round2, round_half_even, Int.fract]
  · simp only [convert, h1, h2, valid_scales, to_celsius, from_celsius]
    simp
    norm_num [round2, round_half_even, Int.fract]
  · intro hle
    rw [show (3204/100 : ℚ) - 32028/1000 = 3/250 by norm_num,
      abs_of_nonneg (by norm_num : (0:ℚ) ≤ 3/250)] at hle
    norm_num at hle

/-- C2 (amended): for every value `v` and valid scales `A ≠ B` (after
normalization), converting `v` from `A` to `B` and back yields a value, and
that value differs from `v` by at most `0.014` (= 7/500); the spec's `0.01`
tolerance is too tight, `0.014` is the bound the double rounding admits. -/
theorem convert_round_trip_spec (v : ℚ) (A B : String)
    (hA : str_lower A ∈ valid_scales) (hB : str_lower B ∈ valid_scales)
    (hAB : str_lower A ≠ str_lower B) :
    convert v A B = Except.ok (pconvert v A B) ∧
    convert (pconvert v A B) B A
      = Except.ok (pconvert (pconvert v A B) B A) ∧
    |pconvert (pconvert v A B) B A - v| ≤ 7/500 := by
  refine ⟨convert_isOk v A B hA hB, convert_isOk _ B A hB hA, ?_⟩
  rw [pconvert_eq_of_ne _ hB hA (Ne.symm hAB), pconvert_eq_of_ne v hA hB hAB]
  exact convert_round_trip_bound v (str_lower A) (str_lower B) hA hB

/-- Witness for C2 (amended) at `v = 25`, Celsius→Kelvin→Celsius. -/
theorem convert_round_trip_spec_witness :
    convert 25 "celsius" "kelvin" = Except.ok (pconvert 25 "celsius" "kelvin") ∧
    convert (pconvert 25 "celsius" "kelvin") "kelvin" "celsius"
      = Except.ok (pconvert (pconvert 25 "celsius" "kelvin") "kelvin" "celsius") ∧
    |pconvert (pconvert 25 "celsius" "kelvin") "kelvin" "celsius" - 25| ≤ 7/500 :=
  convert_round_trip_spec 25 "celsius" "kelvin" (by decide) (by decide) (by decide)

/-- C3: for every value `v` and valid scale `S` in any letter case,
`convert v S S` succeeds with exactly `round2 v`: the input rounded to two
decimal places, with no arithmetic conversion applied. -/
theorem convert_self_eq_round2 (v : ℚ) (S : String)
    (hS : str_lower S ∈ valid_scales) :
    convert v S S = Except.ok (round2 v) := by
  simp [convert, hS]

/-- Witness for C3 at `v = -500` (far below absolute zero, showing no
physical-plausibility check) and the upper-case scale `"KELVIN"`. -/
theorem convert_self_eq_round2_witness :
    convert (-500) "KELVIN" "KELVIN" = Except.ok (round2 (-500)) ∧
    round2 (-500 : ℚ) = -500 :=
  ⟨convert_self_eq_round2 (-500) "KELVIN" (by decide),
   by norm_num [round2, round_half_even]⟩

/-- C4: `convert` fails exactly when a normalized scale argument is not one
of the three valid scales; the error pinpoints the offending argument (the
original is checked first) and carries its normalized value, and these two
`ConvError` shapes are the only errors the converter produces. -/
theorem convert_error_spec (v : ℚ) (A B : String) :
    (str_lower A ∉ valid_scales →
      convert v A B = Except.error (ConvError.invalidOriginal (str_lower A))) ∧
    (str_lower A ∈ valid_scales → str_lower B ∉ valid_scales →
      convert v A B = Except.error (ConvError.invalidTarget (str_lower B))) ∧
    ((∃ e, convert v A B = Except.error e) ↔
      str_lower A ∉ valid_scales ∨ str_lower B ∉ valid_scales) := by
  refine ⟨fun h => by simp [convert, h], fun hA hB => by simp [convert, hA, hB], ?_⟩
  constructor
  · rintro ⟨e, he⟩
    by_contra hc
    push_neg at hc
    rw [convert_isOk v A B hc.1 hc.2] at he
    simp at he
  · rintro (h | h)
    · exact ⟨ConvError.invalidOriginal (str_lower A), by simp [convert, h]⟩
    · by_cases hA : str_lower A ∈ valid_scales
      · exact ⟨ConvError.invalidTarget (str_lower B), by simp [convert, hA, h]⟩
      · exact ⟨ConvError.invalidOriginal (str_lower A), by simp [convert, hA]⟩

/-- Witness for C4: both spec scenarios, `convert(100, "bogus", "celsius")`
and `convert(100, "celsius", "bogus")`. -/
theorem convert_error_spec_witness :
    convert 100 "bogus" "celsius"
      = Except.error (ConvError.invalidOriginal "bogus") ∧
    convert 100 "celsius" "bogus"
      = Except.error (ConvError.invalidTarget "bogus") :=
  ⟨(convert_error_spec 100 "bogus" "celsius").1 (by decide),
   (convert_error_spec 100 "celsius" "bogus").2.1 (by decide) (by decide)⟩

/-- The pure value of `avg_in_celsius` when every conversion succeeds:
`⊥` (`-inf`) for empty readings, otherwise the mean of the converted
readings. -/
def celsius_mean (r : TemperatureRecord) : WithBot ℚ :=
  if r.readings = [] then ⊥
  else (((r.readings.map (fun t => pconvert t r.scale "celsius")).sum
      / ((r.readings.length : ℚ)) : ℚ) : WithBot ℚ)

theorem mapM_convert_ok {s B : String} (hs : str_lower s ∈ valid_scales)
    (hB : str_lower B ∈ valid_scales)
    (ts : List ℚ) : ts.mapM (fun t => convert t s B)
      = Except.ok (ts.map (fun t => pconvert t s B)) := by
  induction ts with
  | nil => rfl
  | cons t ts ih =>
    rw [List.mapM_cons, ih, convert_isOk t s B hs hB]
    rfl

theorem avg_in_celsius_ok (r : TemperatureRecord)
    (h : str_lower r.scale ∈ valid_scales) :
    avg_in_celsius r = Except.ok (celsius_mean r) := by
  unfold avg_in_celsius celsius_mean
  by_cases hr : r.readings = []
  · simp [hr]
  · rw [if_neg hr, if_neg hr, mapM_convert_ok h (by decide) r.readings]
    show Except.ok (((r.readings.map fun t => pconvert t r.scale "celsius").sum
        / (((r.readings.map fun t => pconvert t r.scale "celsius").length : ℚ))
        : ℚ) : WithBot ℚ) = _
    rw [List.length_map]

theorem mapM_keyed_ok (rs : List TemperatureRecord)
    (h : ∀ x ∈ rs, str_lower x.scale ∈ valid_scales) :
    rs.mapM (fun x => (avg_in_celsius x).map (fun kx => (x, kx)))
      = Except.ok (rs.map (fun x => (x, celsius_mean x))) := by
  induction rs with
  | nil => rfl
  | cons x rs ih =>
    rw [List.mapM_cons, avg_in_celsius_ok x (h x (List.mem_cons_self _ _)),
      ih (fun y hy => h y (List.mem_cons_of_mem _ hy))]
    rfl

theorem pyMaxAux_first_max {α : Type} (l : List (α × WithBot ℚ))
    (b : α × WithBot ℚ) :
    ∃ l1 l2, b :: l = l1 ++ pyMaxAux b l :: l2 ∧
      (∀ x ∈ l1, x.2 < (pyMaxAux b l).2) ∧
      (∀ x ∈ l2, x.2 ≤ (pyMaxAux b l).2) := by
  induction l generalizing b with
  | nil => exact ⟨[], [], rfl, by simp, by simp⟩
  | cons x xs ih =>
    by_cases hbx : b.2 < x.2
    · rw [show pyMaxAux b (x :: xs) = pyMaxAux x xs from by
        simp [pyMaxAux, hbx]]
      obtain ⟨l1, l2, hdec, hlt, hle⟩ := ih x
      have hx_le : x.2 ≤ (pyMaxAux x xs).2 := by
        cases l1 with
        | nil =>
          simp only [List.nil_append] at hdec
          have hx : x = pyMaxAux x xs := by
            injection hdec with h1 h2
          exact le_of_eq (congrArg Prod.snd hx)
        | cons a l1' =>
          simp only [List.cons_append] at hdec
          have hxa : x = a := by injection hdec with h1 h2
          have h2 : x.2 = a.2 := congrArg Prod.snd hxa
          rw [h2]
          exact le_of_lt (hlt a (List.mem_cons_self _ _))
      refine ⟨b :: l1, l2, ?_, ?_, hle⟩
      · rw [List.cons_append, ← hdec]
      · intro y hy
        rcases List.mem_cons.mp hy with rfl | hy'
        · exact lt_of_lt_of_le hbx hx_le
        · exact hlt y hy'
    · rw [show pyMaxAux b (x :: xs) = pyMaxAux b xs from by
        simp [pyMaxAux, hbx]]
      obtain ⟨l1, l2, hdec, hlt, hle⟩ := ih b
      cases l1 with
      | nil =>
        simp only [List.nil_append] at hdec
        have hb : b = pyMaxAux b xs := by injection hdec with h1 h2
        have hxs : xs = l2 := by injection hdec with h1 h2
        refine ⟨[], x :: l2, ?_, by simp, ?_⟩
        · simp only [List.nil_append]
          rw [← hb, ← hxs]
        · intro y hy
          rcases List.mem_cons.mp hy with rfl | hy'
          · rw [← hb]
            exact not_lt.mp hbx
          · exact hle y hy'
      | cons a l1' =>
        simp only [List.cons_append] at hdec
        have hba : b = a := by injection hdec with h1 h2
        have hxs : xs = l1' ++ pyMaxAux b xs :: l2 := by
          injection hdec with h1 h2
        subst hba
        refine ⟨b :: x :: l1', l2, ?_, ?_, hle⟩
        · simp only [List.cons_append]
          rw [← hxs]
        · intro y hy
          rcases List.mem_cons.mp hy with rfl | hy'
          · exact hlt y (List.mem_cons_self _ _)
          · rcases List.mem_cons.mp hy' with rfl | hy''
            · exact lt_of_le_of_lt (not_lt.mp hbx)
                (hlt b (List.mem_cons_self _ _))
            · exact hlt y (List.mem_cons_of_mem _ hy'')

theorem map_eq_append_cons {α β : Type} (f : α → β) (l : List α)
    (L1 L2 : List β) (y : β) (h : l.map f = L1 ++ y :: L2) :
    ∃ l1 a l2, l = l1 ++ a :: l2 ∧ l1.map f = L1 ∧ f a = y ∧ l2.map f = L2 := by
  induction L1 generalizing l with
  | nil =>
    cases l with
    | nil => simp at h
    | cons a l' =>
      simp only [List.map_cons, List.nil_append] at h
      have h1 : f a = y := by injection h with h1 h2
      have h2 : l'.map f = L2 := by injection h with h1 h2
      exact ⟨[], a, l', rfl, rfl, h1, h2⟩
  | cons c L1' ih =>
    cases l with
    | nil => simp at h
    | cons a l' =>
      simp only [List.map_cons, List.cons_append] at h
      have h1 : f a = c := by injection h with h1 h2
      have h2 : l'.map f = L1' ++ y :: L2 := by injection h with h1 h2
      obtain ⟨l1, d, l2, hdec, hm1, hm2, hm3⟩ := ih l' h2
      exact ⟨a :: l1, d, l2, by rw [hdec, List.cons_append], by simp [hm1, h1],
        hm2, hm3⟩

end TempToolkit

namespace TempToolkit

/-- C1 (amended): for a list of records with valid scales, `hottest_day`
returns `""` on the empty list; on a non-empty list it returns the date of
the first record attaining the maximum Celsius mean (records before it score
strictly lower, records after score no higher); and a record with empty
readings (key `⊥`, i.e. `-inf`) can never be the winner whenever some record
in the list has non-empty readings. -/
theorem hottest_day_spec (records : List TemperatureRecord)
    (hv : ∀ r ∈ records, str_lower r.scale ∈ valid_scales) :
    (records = [] → hottest_day records = Except.ok "") ∧
    (records ≠ [] → ∃ best l1 l2,
      hottest_day records = Except.ok best.date ∧
      records = l1 ++ best :: l2 ∧
      (∀ r ∈ l1, celsius_mean r < celsius_mean best) ∧
      (∀ r ∈ l2, celsius_mean r ≤ celsius_mean best) ∧
      ((∃ r ∈ records, r.readings ≠ []) → best.readings ≠ [])) := by
  constructor
  · rintro rfl
    rfl
  · intro hne
    obtain ⟨r, rs, rfl⟩ := List.exists_cons_of_ne_nil hne
    have hr := hv r (List.mem_cons_self _ _)
    have hday : hottest_day (r :: rs)
        = Except.ok (pyMaxAux (r, celsius_mean r)
            (rs.map (fun x => (x, celsius_mean x)))).1.date := by
      show (do
        let k ← avg_in_celsius r
        let keyed ← rs.mapM
          (fun x => (avg_in_celsius x).map (fun kx => (x, kx)))
        Except.ok (pyMaxAux (r, k) keyed).1.date) = _
      rw [avg_in_celsius_ok r hr,
        mapM_keyed_ok rs (fun y hy => hv y (List.mem_cons_of_mem _ hy))]
      rfl
    obtain ⟨L1, L2, hdec, hlt, hle⟩ :=
      pyMaxAux_first_max (rs.map (fun x => (x, celsius_mean x)))
        (r, celsius_mean r)
    have hdec' : (r :: rs).map (fun x => (x, celsius_mean x))
        = L1 ++ pyMaxAux (r, celsius_mean r)
            (rs.map (fun x => (x, celsius_mean x))) :: L2 := by
      simpa using hdec
    obtain ⟨l1, best, l2, hrec, hL1, hbest, hL2⟩ :=
      map_eq_append_cons _ _ _ _ _ hdec'
    have hfst : (pyMaxAux (r, celsius_mean r)
        (rs.map (fun x => (x, celsius_mean x)))).1 = best :=
      congrArg Prod.fst hbest.symm
    have hsnd : (pyMaxAux (r, celsius_mean r)
        (rs.map (fun x => (x, celsius_mean x)))).2 = celsius_mean best :=
      congrArg Prod.snd hbest.symm
    have hlt' : ∀ x ∈ l1, celsius_mean x < celsius_mean best := by
      intro x hx
      have hm : (x, celsius_mean x) ∈ L1 := by
        rw [← hL1]
        exact List.mem_map_of_mem _ hx
      have := hlt _ hm
      rw [hsnd] at this
      exact this
    have hle' : ∀ x ∈ l2, celsius_mean x ≤ celsius_mean best := by
      intro x hx
      have hm : (x, celsius_mean x) ∈ L2 := by
        rw [← hL2]
        exact List.mem_map_of_mem _ hx
      have := hle _ hm
      rw [hsnd] at this
      exact this
    refine ⟨best, l1, l2, ?_, hrec, hlt', hle', ?_⟩
    · rw [hday, hfst]
    · rintro ⟨r0, hr0, hr0ne⟩
      by_contra hbe
      have hkey0 : celsius_mean best = ⊥ := by
        simp [celsius_mean, hbe]
      have hk0 : celsius_mean r0 ≠ ⊥ := by
        simp [celsius_mean, hr0ne]
      rw [hrec] at hr0
      rcases List.mem_append.mp hr0 with h0 | h0
      · have := hlt' r0 h0
        rw [hkey0] at this
        exact absurd this (by simp)
      · rcases List.mem_cons.mp h0 with rfl | h0'
        · exact absurd hbe hr0ne
        · have := hle' r0 h0'
          rw [hkey0, le_bot_iff] at this
          exact hk0 this

/-- C1 counterexample: for the non-empty list holding one record with empty
readings, `hottest_day` returns that record's date: a record with empty
readings is returned as the hottest day although the list is non-empty. -/
theorem hottest_day_empty_record_wins :
    hottest_day [TemperatureRecord.make "d" [] "celsius"] = Except.ok "d" ∧
    (TemperatureRecord.make "d" [] "celsius").readings = [] := by
  constructor
  · simp [hottest_day, avg_in_celsius, TemperatureRecord.make, pyMaxAux,
      List.mapM, List.mapM.loop, Except.bind, Except.pure, Except.map, bind,
      pure]
  · rfl

/-- Witness for C1 (amended) on a two-record list whose first record has
empty readings. -/
theorem hottest_day_spec_witness :
    ∃ best l1 l2,
      hottest_day [TemperatureRecord.make "a" [] "celsius",
        TemperatureRecord.make "b" [30] "celsius"] = Except.ok best.date ∧
      [TemperatureRecord.make "a" [] "celsius",
        TemperatureRecord.make "b" [30] "celsius"] = l1 ++ best :: l2 ∧
      (∀ r ∈ l1, celsius_mean r < celsius_mean best) ∧
      (∀ r ∈ l2, celsius_mean r ≤ celsius_mean best) ∧
      ((∃ r ∈ [TemperatureRecord.make "a" [] "celsius",
          TemperatureRecord.make "b" [30] "celsius"], r.readings ≠ []) →
        best.readings ≠ []) := by
  have hv : ∀ r ∈ [TemperatureRecord.make "a" [] "celsius",
      TemperatureRecord.make "b" [30] "celsius"],
      str_lower r.scale ∈ valid_scales := by
    intro r hr
    simp only [List.mem_cons, List.not_mem_nil, or_false] at hr
    rcases hr with rfl | rfl <;> decide
  exact (hottest_day_spec _ hv).2 (by simp)

end TempToolkit

namespace TempToolkit

/-- C5: `convert_to` with a target that lower-cases to the record's current
scale is a no-op returning the record unchanged; with a different valid
target it returns the record whose readings are all converted via `convert`
and whose scale is the normalized target — both fields updated together in
the one returned record. -/
theorem convert_to_spec (r : TemperatureRecord) (t : String) :
    (str_lower t = r.scale → r.convert_to t = Except.ok r) ∧
    (str_lower t ≠ r.scale → str_lower r.scale ∈ valid_scales →
      str_lower t ∈ valid_scales →
      r.convert_to t = Except.ok
        { date := r.date
          readings := r.readings.map
            (fun temp => pconvert temp r.scale (str_lower t))
          scale := str_lower t }) := by
  constructor
  · intro h
    simp [TemperatureRecord.convert_to, h]
  · intro hne hs ht
    have hB : str_lower (str_lower t) ∈ valid_scales := by
      rw [str_lower_valid_fix ht]
      exact ht
    unfold TemperatureRecord.convert_to
    rw [if_neg hne, mapM_convert_ok hs hB r.readings]
    rfl

/-- Witness for C5: both branches at concrete records — a no-op conversion
to the current scale, and a real Celsius→Kelvin conversion that rewrites the
readings and the scale together. -/
theorem convert_to_spec_witness :
    (TemperatureRecord.make "d" [5] "celsius").convert_to "CELSIUS"
      = Except.ok (TemperatureRecord.make "d" [5] "celsius") ∧
    (TemperatureRecord.make "d" [5] "celsius").convert_to "KELVIN"
      = Except.ok
        { date := "d"
          readings := [5].map (fun temp => pconvert temp
            (TemperatureRecord.make "d" [5] "celsius").scale "kelvin")
          scale := "kelvin" } :=
  ⟨(convert_to_spec (TemperatureRecord.make "d" [5] "celsius") "CELSIUS").1
      (by decide),
   (convert_to_spec (TemperatureRecord.make "d" [5] "celsius") "KELVIN").2
      (by decide) (by decide) (by decide)⟩

theorem foldl_min_le_init (xs : List ℚ) (a : ℚ) : xs.foldl min a ≤ a := by
  induction xs generalizing a with
  | nil => exact le_refl a
  | cons x xs ih => exact le_trans (ih (min a x)) (min_le_left a x)

theorem foldl_min_le (xs : List ℚ) (a : ℚ) : ∀ y ∈ xs, xs.foldl min a ≤ y := by
  induction xs generalizing a with
  | nil => intro y hy; cases hy
  | cons x xs ih =>
    intro y hy
    rcases List.mem_cons.mp hy with rfl | hy'
    · exact le_trans (foldl_min_le_init xs (min a y)) (min_le_right a y)
    · exact ih (min a x) y hy'

theorem foldl_min_mem (xs : List ℚ) (a : ℚ) : xs.foldl min a ∈ a :: xs := by
  induction xs generalizing a with
  | nil => exact List.mem_cons_self a []
  | cons x xs ih =>
    have h := ih (min a x)
    rcases List.mem_cons.mp h with he | hm
    · rw [List.foldl_cons, he]
      rcases min_choice a x with h1 | h1 <;> rw [h1]
      · exact List.mem_cons_self _ _
      · exact List.mem_cons_of_mem _ (List.mem_cons_self _ _)
    · exact List.mem_cons_of_mem _ (List.mem_cons_of_mem _ hm)

theorem le_foldl_max_init (xs : List ℚ) (a : ℚ) : a ≤ xs.foldl max a := by
  induction xs generalizing a with
  | nil => exact le_refl a
  | cons x xs ih => exact le_trans (le_max_left a x) (ih (max a x))

theorem le_foldl_max (xs : List ℚ) (a : ℚ) : ∀ y ∈ xs, y ≤ xs.foldl max a := by
  induction xs generalizing a with
  | nil => intro y hy; cases hy
  | cons x xs ih =>
    intro y hy
    rcases List.mem_cons.mp hy with rfl | hy'
    · exact le_trans (le_max_right a y) (le_foldl_max_init xs (max a y))
    · exact ih (max a x) y hy'

theorem foldl_max_mem (xs : List ℚ) (a : ℚ) : xs.foldl max a ∈ a :: xs := by
  induction xs generalizing a with
  | nil => exact List.mem_cons_self a []
  | cons x xs ih =>
    have h := ih (max a x)
    rcases List.mem_cons.mp h with he | hm
    · rw [List.foldl_cons, he]
      rcases max_choice a x with h1 | h1 <;> rw [h1]
      · exact List.mem_cons_self _ _
      · exact List.mem_cons_of_mem _ (List.mem_cons_self _ _)
    · exact List.mem_cons_of_mem _ (List.mem_cons_of_mem _ hm)

end TempToolkit

namespace TempToolkit

/-- C6: `get_summary` reports the record's date and scale together with the
minimum, maximum and mean of the readings, each rounded to 2 decimal places;
for empty readings it reports the sentinel 0 for all three statistics and
raises no error (it is a total function). -/
theorem get_summary_spec (r : TemperatureRecord) :
    r.get_summary.date = r.date ∧ r.get_summary.scale = r.scale ∧
    (r.readings = [] → r.get_summary = ⟨r.date, r.scale, 0, 0, 0⟩) ∧
    (r.readings ≠ [] → ∃ m M, m ∈ r.readings ∧ M ∈ r.readings ∧
      (∀ y ∈ r.readings, m ≤ y ∧ y ≤ M) ∧
      r.get_summary = ⟨r.date, r.scale, round2 m, round2 M,
        round2 (r.readings.sum / (r.readings.length : ℚ))⟩) := by
  rcases hr : r.readings with _ | ⟨x, xs⟩
  · refine ⟨?_, ?_, fun _ => ?_, fun hne => absurd rfl hne⟩ <;>
      simp [TemperatureRecord.get_summary, hr]
  · have hsum : r.get_summary = ⟨r.date, r.scale, round2 (xs.foldl min x),
        round2 (xs.foldl max x),
        round2 ((x :: xs).sum / ((x :: xs).length : ℚ))⟩ := by
      simp [TemperatureRecord.get_summary, hr]
    refine ⟨by rw [hsum], by rw [hsum], fun he => absurd he (by simp), ?_⟩
    intro _
    refine ⟨xs.foldl min x, xs.foldl max x, foldl_min_mem xs x,
      foldl_max_mem xs x, ?_, hsum⟩
    intro y hy
    rcases List.mem_cons.mp hy with rfl | hy'
    · exact ⟨foldl_min_le_init xs y, le_foldl_max_init xs y⟩
    · exact ⟨foldl_min_le xs x y hy', le_foldl_max xs x y hy'⟩

/-- Witness for C6 at an empty record and at the spec's scenario record
`Record("2025-04-01", [10,20,30], "celsius")` (whose summary evaluates to
min 10, max 30, avg 20). -/
theorem get_summary_spec_witness :
    (TemperatureRecord.make "e" [] "celsius").get_summary
      = ⟨"e", "celsius", 0, 0, 0⟩ ∧
    (∃ m M,
      m ∈ (TemperatureRecord.make "2025-04-01" [10, 20, 30]
        "celsius").readings ∧
      M ∈ (TemperatureRecord.make "2025-04-01" [10, 20, 30]
        "celsius").readings ∧
      (∀ y ∈ (TemperatureRecord.make "2025-04-01" [10, 20, 30]
        "celsius").readings, m ≤ y ∧ y ≤ M) ∧
      (TemperatureRecord.make "2025-04-01" [10, 20, 30] "celsius").get_summary
        = ⟨"2025-04-01", "celsius", round2 m, round2 M,
            round2 ((TemperatureRecord.make "2025-04-01" [10, 20, 30]
                "celsius").readings.sum
              / (((TemperatureRecord.make "2025-04-01" [10, 20, 30]
                "celsius").readings.length : ℕ) : ℚ))⟩) ∧
    (TemperatureRecord.make "2025-04-01" [10, 20, 30] "celsius").get_summary
      = ⟨"2025-04-01", "celsius", 10, 30, 20⟩ := by
  refine ⟨(get_summary_spec (TemperatureRecord.make "e" [] "celsius")).2.2.1
      rfl,
    (get_summary_spec
      (TemperatureRecord.make "2025-04-01" [10, 20, 30] "celsius")).2.2.2
      (by simp [TemperatureRecord.make]), ?_⟩
  have h2 : str_lower "celsius" = "celsius" := by decide
  simp only [TemperatureRecord.make, TemperatureRecord.get_summary, h2]
  norm_num [round2, round_half_even, Int.fract]

/-- C7: `detect_extreme_days` returns exactly the dates of the records
having some reading strictly greater than the raw threshold (equality does
not qualify), and the returned list is a sublist of all dates in input
order. -/
theorem detect_extreme_days_spec (records : List TemperatureRecord)
    (threshold : ℚ) :
    (∀ d, d ∈ detect_extreme_days records threshold ↔
      ∃ r ∈ records, r.date = d ∧ ∃ t ∈ r.readings, threshold < t) ∧
    (detect_extreme_days records threshold).Sublist
      (records.map TemperatureRecord.date) := by
  constructor
  · intro d
    simp only [detect_extreme_days, List.mem_map, List.mem_filter,
      List.any_eq_true, decide_eq_true_eq]
    constructor
    · rintro ⟨r, ⟨hr, t, ht, hgt⟩, hd⟩
      exact ⟨r, hr, hd, t, ht, hgt⟩
    · rintro ⟨r, hr, hd, t, ht, hgt⟩
      exact ⟨r, ⟨hr, t, ht, hgt⟩, hd⟩
  · exact (List.filter_sublist _).map _

end TempToolkit

namespace TempToolkit

theorem range_foldl_none (records : List TemperatureRecord)
    (m : String → Option (ℚ × ℚ)) (d : String) :
    (records.foldl (fun (result : String → Option (ℚ × ℚ)) record =>
        Function.update result record.date (some (day_range record))) m) d
        = none
      ↔ m d = none ∧ ∀ r ∈ records, r.date ≠ d := by
  induction records generalizing m with
  | nil => simp
  | cons r rs ih =>
    rw [List.foldl_cons, ih]
    constructor
    · rintro ⟨hup, hall⟩
      by_cases hd : d = r.date
      · rw [hd, Function.update_same] at hup
        exact absurd hup (Option.some_ne_none _)
      · rw [Function.update_noteq hd] at hup
        refine ⟨hup, fun r' hr' => ?_⟩
        rcases List.mem_cons.mp hr' with rfl | h
        · exact fun hc => hd hc.symm
        · exact hall r' h
    · rintro ⟨hm, hall⟩
      have hd : r.date ≠ d := hall r (List.mem_cons_self _ _)
      refine ⟨?_, fun r' hr' => hall r' (List.mem_cons_of_mem _ hr')⟩
      rw [Function.update_noteq (fun hc => hd hc.symm)]
      exact hm

theorem range_foldl_skip (l : List TemperatureRecord)
    (m : String → Option (ℚ × ℚ)) (d : String)
    (h : ∀ r ∈ l, r.date ≠ d) :
    (l.foldl (fun (result : String → Option (ℚ × ℚ)) record =>
      Function.update result record.date (some (day_range record))) m) d
      = m d := by
  induction l generalizing m with
  | nil => rfl
  | cons r rs ih =>
    rw [List.foldl_cons,
      ih _ (fun r' hr' => h r' (List.mem_cons_of_mem _ hr'))]
    exact Function.update_noteq
      (fun hc => (h r (List.mem_cons_self _ _)) hc.symm) _ _

/-- C8: the per-day range map sends a date to `none` exactly when no record
carries it; a record followed by no later record with the same date
determines the value stored at its date (so on collision the later record in
input order wins); the stored pair is (0, 0) for empty readings and
otherwise the (min, max) of the readings, rounded to 2 decimals. -/
theorem temperature_range_for_each_day_spec
    (records : List TemperatureRecord) :
    (∀ d, temperature_range_for_each_day records d = none ↔
      ∀ r ∈ records, r.date ≠ d) ∧
    (∀ l1 rec l2, records = l1 ++ rec :: l2 →
      (∀ r' ∈ l2, r'.date ≠ rec.date) →
      temperature_range_for_each_day records rec.date
        = some (day_range rec)) ∧
    (∀ rec : TemperatureRecord,
      (rec.readings = [] → day_range rec = (0, 0)) ∧
      (rec.readings ≠ [] → ∃ m M, m ∈ rec.readings ∧ M ∈ rec.readings ∧
        (∀ y ∈ rec.readings, m ≤ y ∧ y ≤ M) ∧
        day_range rec = (round2 m, round2 M))) := by
  refine ⟨?_, ?_, ?_⟩
  · intro d
    rw [temperature_range_for_each_day, range_foldl_none]
    simp
  · intro l1 rec l2 hrec hlast
    have hs := range_foldl_skip l2
      (Function.update
        (List.foldl (fun (result : String → Option (ℚ × ℚ)) record =>
          Function.update result record.date (some (day_range record)))
          (fun _ => none) l1)
        rec.date (some (day_range rec)))
      rec.date hlast
    rw [temperature_range_for_each_day, hrec, List.foldl_append,
      List.foldl_cons, hs]
    exact Function.update_same _ _ _
  · intro rec
    rcases hrd : rec.readings with _ | ⟨x, xs⟩
    · exact ⟨fun _ => by simp [day_range, hrd], fun hne => absurd rfl hne⟩
    · refine ⟨fun he => absurd he (by simp), fun _ => ?_⟩
      refine ⟨xs.foldl min x, xs.foldl max x, foldl_min_mem xs x,
        foldl_max_mem xs x, ?_, by simp [day_range, hrd]⟩
      intro y hy
      rcases List.mem_cons.mp hy with rfl | hy'
      · exact ⟨foldl_min_le_init xs y, le_foldl_max_init xs y⟩
      · exact ⟨foldl_min_le xs x y hy', le_foldl_max xs x y hy'⟩

/-- Witness for C8: two records share the date "d"; the map stores the later
record's range. -/
theorem temperature_range_for_each_day_spec_witness :
    temperature_range_for_each_day
      [TemperatureRecord.make "d" [10, 20] "celsius",
        TemperatureRecord.make "d" [5] "celsius"]
      (TemperatureRecord.make "d" [5] "celsius").date
      = some (day_range (TemperatureRecord.make "d" [5] "celsius")) :=
  (temperature_range_for_each_day_spec _).2.1
    [TemperatureRecord.make "d" [10, 20] "celsius"]
    (TemperatureRecord.make "d" [5] "celsius") [] rfl (by simp)

theorem spikeAux_iff (th : ℚ) (xs : List ℚ) : ∀ (prev : ℚ),
    spikeAux th prev xs = true ↔
      ∃ p ∈ (prev :: xs).zip xs, th ≤ |p.2 - p.1| := by
  induction xs with
  | nil =>
    intro prev
    simp [spikeAux]
  | cons x xs ih =>
    intro prev
    by_cases h : th ≤ |x - prev|
    · simp only [spikeAux, if_pos h]
      constructor
      · intro _
        refine ⟨(prev, x), ?_, h⟩
        rw [List.zip_cons_cons]
        exact List.mem_cons_self _ _
      · intro _
        trivial
    · simp only [spikeAux, if_neg h]
      rw [ih x, List.zip_cons_cons]
      constructor
      · rintro ⟨p, hp, hle⟩
        exact ⟨p, List.mem_cons_of_mem _ hp, hle⟩
      · rintro ⟨p, hp, hle⟩
        rcases List.mem_cons.mp hp with rfl | hp'
        · exact absurd hle h
        · exact ⟨p, hp', hle⟩

/-- C9: `detect_spike` is true exactly when some adjacent pair of readings
differs in absolute value by at least the threshold (the boundary is
inclusive); it is false for fewer than two readings; and the omitted-argument
form uses the default threshold 5. -/
theorem detect_spike_spec (temps : List ℚ) (threshold : ℚ) :
    (detect_spike temps threshold = true ↔
      ∃ p ∈ temps.zip temps.tail, threshold ≤ |p.2 - p.1|) ∧
    (temps.length < 2 → detect_spike temps threshold = false) ∧
    detect_spike_default temps = detect_spike temps 5 := by
  refine ⟨?_, ?_, rfl⟩
  · cases temps with
    | nil => simp [detect_spike]
    | cons x xs => exact spikeAux_iff threshold xs x
  · intro hlen
    rcases temps with _ | ⟨x, _ | ⟨y, ys⟩⟩
    · rfl
    · rfl
    · exfalso
      simp only [List.length_cons] at hlen
      omega

/-- Witness for C9: the spec's scenarios `detectSpike([10,20]) == true` and
a singleton list giving false. -/
theorem detect_spike_spec_witness :
    detect_spike [(10 : ℚ)] 5 = false ∧
    detect_spike [(10 : ℚ), 20] 5 = true := by
  refine ⟨(detect_spike_spec [(10 : ℚ)] 5).2.1 (by simp),
    (detect_spike_spec [(10 : ℚ), 20] 5).1.mpr ⟨((10 : ℚ), (20 : ℚ)), ?_, ?_⟩⟩
  · simp
  · rw [show ((10 : ℚ), (20 : ℚ)).2 - ((10 : ℚ), (20 : ℚ)).1 = 10 from by
      norm_num]
    rw [abs_of_nonneg (by norm_num : (0:ℚ) ≤ 10)]
    norm_num

/-- C10: the record constructor stores any scale string (lower-cased)
without validation, and `convert_to` whose lower-cased target equals the
stored scale returns the record unchanged with no error, even when that
shared scale is invalid: the equality short-circuits before the converter's
validation can run. -/
theorem record_accepts_any_scale (d : String) (rs : List ℚ) (s t : String)
    (h : str_lower t = str_lower s) :
    (TemperatureRecord.make d rs s).date = d ∧
    (TemperatureRecord.make d rs s).readings = rs ∧
    (TemperatureRecord.make d rs s).scale = str_lower s ∧
    (TemperatureRecord.make d rs s).convert_to t
      = Except.ok (TemperatureRecord.make d rs s) := by
  refine ⟨rfl, rfl, rfl, ?_⟩
  simp [TemperatureRecord.convert_to, TemperatureRecord.make, h]

/-- Witness for C10 at the invalid scale "BOGUS": construction succeeds and
`convert_to "Bogus"` is error-free although "bogus" is not a valid scale. -/
theorem record_accepts_any_scale_witness :
    (TemperatureRecord.make "d" [1] "BOGUS").convert_to "Bogus"
      = Except.ok (TemperatureRecord.make "d" [1] "BOGUS") ∧
    "bogus" ∉ valid_scales :=
  ⟨(record_accepts_any_scale "d" [1] "BOGUS" "Bogus" (by decide)).2.2.2,
   by decide⟩

end TempToolkit
